import Mathlib

/-
  Verification of the elliptics blob backend (src/example/blob/backend.c),
  the in-memory cache command handler (src/cache/cache.cpp) and the
  recovery driver's exit protocol (src/recovery/dnet_recovery).

  The embedding is a shallow one: the on-disk log files are modelled at
  record granularity (a log is the list of records that were appended to
  it, each carrying its DiskControl header, its payload bytes and the
  number of alignment-padding bytes that follow it on disk); the
  in-memory hash table is modelled as a function from composite keys to
  optional ram-control values; machine integers are Nat (no write in the
  modelled scenarios approaches 2^64, and the C code performs no
  wrapping arithmetic on the modelled paths); the little-endian
  conversion performed by blob_convert_disk_control is a byte-order
  conversion and is the identity on the level of values, so it is not
  represented.  External I/O errors (short read/write, ENOMEM) are
  environment failures; the embedding models the successful executions,
  which is what every claim under scrutiny quantifies over, except where
  an error path changes the state visible to the claim (those paths are
  modelled explicitly, see blob_write_history_meta and blob_read).
-/

namespace Elliptics

/-- DNET_ID_SIZE from elliptics/packet.h: identifiers are 64 bytes. -/
def DNET_ID_SIZE : Nat := 64

/-- sizeof(struct blob_disk_control): the id plus two little-endian
    64-bit fields (flags, size); see the spec's on-disk layout
    (IdLen + 16 bytes). -/
def sizeof_blob_disk_control : Nat := DNET_ID_SIZE + 16

/-- BLOB_DISK_CTL_REMOVE: the tombstone flag, bit 0 of the flags field. -/
def BLOB_DISK_CTL_REMOVE : Nat := 1

/-- struct blob_disk_control: the fixed header prepended to every
    on-disk record.  The 64-byte id is modelled as an opaque Nat. -/
structure blob_disk_control where
  id : Nat
  flags : Nat
  size : Nat
deriving DecidableEq

/-- struct blob_ram_control (blob.h, carried by the hash): the value
    stored in the in-memory index is the record's file offset and its
    total on-disk size.  The composite key is kept outside. -/
structure blob_ram_control where
  offset : Nat
  size : Nat
deriving DecidableEq

/-- The flag bits of dnet_io_attr.flags that backend.c inspects:
    DNET_IO_FLAGS_HISTORY, DNET_IO_FLAGS_APPEND,
    DNET_IO_FLAGS_NO_HISTORY_UPDATE, DNET_IO_FLAGS_META.  packet.h is
    not part of the sources under scrutiny, so the bitfield is modelled
    as a record of the four distinct bits the code tests and sets. -/
structure io_flags where
  history : Bool
  append : Bool
  noHistoryUpdate : Bool
  meta : Bool
deriving DecidableEq

/-- struct dnet_io_attr: per-request descriptor
    (id[IdLen], origin[IdLen], offset, size, flags). -/
structure dnet_io_attr where
  id : Nat
  origin : Nat
  offset : Nat
  size : Nat
  flags : io_flags
deriving DecidableEq

/-- Modelled from the spec: sizeof(struct dnet_io_attr).  packet.h is
    not in the sources; the spec gives the fields
    (id[IdLen], origin[IdLen], offset, size, flags), hence
    2*IdLen + 3*8 bytes.  Only its comparison with dnet_attr.size in
    blob_read depends on this value. -/
def sizeof_dnet_io_attr : Nat := 2 * DNET_ID_SIZE + 24

/-- One on-disk record: DiskControl header, payload bytes, and the
    number of zero bytes of alignment padding written after it.
    A log file is a list of these. -/
structure blob_record where
  dc : blob_disk_control
  payload : List Nat
  pad : Nat
deriving DecidableEq

/-- The number of bytes the record occupies on disk:
    header + payload (dc.size bytes were written) + padding. -/
def onDiskSize (r : blob_record) : Nat :=
  sizeof_blob_disk_control + r.dc.size + r.pad

/-- Total byte length of a log file. -/
def logSize : List blob_record → Nat
  | [] => 0
  | r :: rest => onDiskSize r + logSize rest

/-- The number of padding bytes blob_write_raw emits after a record of
    header+payload length len: the code computes
    size = bsize - (len % bsize) and pads only while 0 < size < bsize,
    so an already-aligned record receives no padding; bsize = 0 pads
    nothing. -/
def blob_pad (bsize len : Nat) : Nat :=
  if bsize = 0 then 0
  else if len % bsize = 0 then 0
  else bsize - len % bsize

/-- The in-memory index: composite key (identifier, kind) to
    ram-control.  kind = true is the history log (key[DNET_ID_SIZE] = 1),
    kind = false the data log. -/
abbrev Idx : Type := (Nat × Bool) → Option blob_ram_control

/-- dnet_hash_replace: insert-or-replace at a key. -/
def idxUpdate (i : Idx) (k : Nat × Bool) (v : blob_ram_control) : Idx :=
  fun k' => if k' = k then some v else i k'

/-- The empty hash table. -/
def emptyIdx : Idx := fun _ => none

/-- struct blob_backend: configuration, the two log files with their
    tail offsets, and the in-memory hash.  File descriptors and the
    mutex are not represented: the embedding describes the state as
    observed under the lock. -/
structure blob_backend where
  data_bsize : Nat
  history_bsize : Nat
  data_offset : Nat
  history_offset : Nat
  dataLog : List blob_record
  histLog : List blob_record
  hash : Idx

/-- The block size of the chosen log (hist selects history vs data). -/
def bsizeOf (s : blob_backend) (hist : Bool) : Nat :=
  if hist then s.history_bsize else s.data_bsize

/-- The tail offset of the chosen log. -/
def tailOf (s : blob_backend) (hist : Bool) : Nat :=
  if hist then s.history_offset else s.data_offset

/-- The record blob_write_raw appends: header (id = io.origin, flags 0,
    size = io.size), the first io.size payload bytes, and alignment
    padding up to the block size. -/
def mkRecord (bsize : Nat) (io : dnet_io_attr) (data : List Nat) : blob_record :=
  { dc := { id := io.origin, flags := 0, size := io.size }
  , payload := data.take io.size
  , pad := blob_pad bsize (sizeof_blob_disk_control + io.size) }

/-- blob_write_raw (backend.c:94): under the lock, write header then
    payload at the current tail of the chosen log, pad to the block
    size, record (tail-before, bytes-written) in the hash under the
    composite key (io.origin, hist), and advance the tail by the bytes
    written (ctl.size = offset - ctl.offset). -/
def blob_write_raw (s : blob_backend) (hist : Bool) (io : dnet_io_attr)
    (data : List Nat) : blob_backend :=
  let bsize := bsizeOf s hist
  let r := mkRecord bsize io data
  let ctl : blob_ram_control := { offset := tailOf s hist, size := onDiskSize r }
  let key : Nat × Bool := (io.origin, hist)
  if hist then
    { s with histLog := s.histLog ++ [r]
           , hash := idxUpdate s.hash key ctl
           , history_offset := s.history_offset + ctl.size }
  else
    { s with dataLog := s.dataLog ++ [r]
           , hash := idxUpdate s.hash key ctl
           , data_offset := s.data_offset + ctl.size }

/-- dnet_blob_iter (backend.c:522): the per-record callback of the
    startup scan.  REMOVED records are skipped; otherwise the hash gets
    (position, dc.size + sizeof(blob_disk_control)) under (id, hist).
    Note the inserted size does not include alignment padding. -/
def dnet_blob_iter (dc : blob_disk_control) (position : Nat) (hist : Bool)
    (idx : Idx) : Idx :=
  if dc.flags &&& BLOB_DISK_CTL_REMOVE ≠ 0 then idx
  else idxUpdate idx (dc.id, hist)
        { offset := position, size := dc.size + sizeof_blob_disk_control }

/-- Modelled from the spec: blob_iterate (blob.c, not in the sources
    under scrutiny) walks a log file from offset 0, reading each
    DiskControl header and invoking the callback with the record's
    position, then advances past header + payload + alignment padding.
    In this record-granular model the advance is the record's on-disk
    size; the truncated-tail stop cannot arise because a log holds only
    whole records. -/
def scanFrom (hist : Bool) : Nat → Idx → List blob_record → Idx
  | _, idx, [] => idx
  | pos, idx, r :: rest =>
      scanFrom hist (pos + onDiskSize r) (dnet_blob_iter r.dc pos hist idx) rest

/-- dnet_blob_config_init's rebuild: a fresh hash is filled by scanning
    the data log (kind false) and then the history log (kind true),
    each from offset 0. -/
def rebuildIndex (s : blob_backend) : Idx :=
  scanFrom true 0 (scanFrom false 0 emptyIdx s.dataLog) s.histLog

/-- Positional read of a whole record: the record that starts at byte
    offset target, found by walking the log from byte position pos.
    Models the pread of ctl.size bytes at ctl.offset performed by
    blob_write_history_meta; in reachable states the index only ever
    holds record-start offsets. -/
def recordAtPos : Nat → Nat → List blob_record → Option blob_record
  | _, _, [] => none
  | pos, target, r :: rest =>
      if pos = target then some r
      else recordAtPos (pos + onDiskSize r) target rest

/-- Set the REMOVED flag in a header (dc->flags |= BLOB_DISK_CTL_REMOVE). -/
def markRemoved (r : blob_record) : blob_record :=
  { r with dc := { r.dc with flags := r.dc.flags ||| BLOB_DISK_CTL_REMOVE } }

/-- The in-place header rewrite of blob_write_history_meta: the record
    starting at byte offset target gets its REMOVED flag set; nothing
    is resized.  If no record starts at target the log is unchanged
    (the C code would have failed its pread before the rewrite). -/
def markRemovedAt : Nat → Nat → List blob_record → List blob_record
  | _, _, [] => []
  | pos, target, r :: rest =>
      if pos = target then markRemoved r :: rest
      else r :: markRemovedAt (pos + onDiskSize r) target rest

/-- blob_write_history_meta (backend.c:173): look the composite history
    key up; when present, read the prior blob at its indexed offset,
    set REMOVED in its on-disk header in place, strip the header
    (memmove of dc->size bytes from past the header) and hand the bytes
    to the external process_meta hook; when absent, hand the hook an
    empty blob.  The hook's result is appended to the history log as a
    fresh record via blob_write_raw (io->size = the result's length),
    which also moves the index to the new offset.  If the indexed
    offset matches no record start, the pread fails and the state is
    left unchanged (the C error path exits before the header rewrite). -/
def blob_write_history_meta (process_meta : List Nat → List Nat)
    (s : blob_backend) (io : dnet_io_attr) : blob_backend :=
  let key : Nat × Bool := (io.origin, true)
  match s.hash key with
  | some ctl =>
    match recordAtPos 0 ctl.offset s.histLog with
    | some r =>
      let s1 := { s with histLog := markRemovedAt 0 ctl.offset s.histLog }
      let hdata := r.payload.take r.dc.size
      let newData := process_meta hdata
      blob_write_raw s1 true { io with size := newData.length } newData
    | none => s
  | none =>
    let newData := process_meta []
    blob_write_raw s true { io with size := newData.length } newData

/-- Modelled from the spec: backend_write_history (backends.c, not in
    the sources under scrutiny) drives the per-key history update by
    invoking the supplied callback -- here blob_write_history_meta --
    with the external process_meta hook, which combines the old history
    blob with the new entry bytes (and any metadata update).  The hook
    is modelled as a function from the new entry bytes and the stripped
    old blob to the blob to append. -/
def backend_write_history (process_meta : List Nat → List Nat → List Nat)
    (s : blob_backend) (io : dnet_io_attr) (data : List Nat) : blob_backend :=
  blob_write_history_meta (process_meta data) s io

/-- blob_write_history (backend.c:257) delegates to
    backend_write_history with blob_write_history_meta as callback. -/
def blob_write_history (process_meta : List Nat → List Nat → List Nat)
    (s : blob_backend) (io : dnet_io_attr) (data : List Nat) : blob_backend :=
  backend_write_history process_meta s io data

/-- struct dnet_history_entry: (id, size, offset, timestamp, flags);
    the timestamp argument of dnet_setup_history_entry is NULL on this
    path and is not represented. -/
structure dnet_history_entry where
  id : Nat
  size : Nat
  offset : Nat
  flags : io_flags
deriving DecidableEq

/-- Modelled from the spec: sizeof(struct dnet_history_entry)
    (id[IdLen] plus size, offset, a two-word timestamp and flags).
    The value is immaterial: blob_write_history_meta overwrites
    io->size with the hook result's length before the append. -/
def sizeof_dnet_history_entry : Nat := DNET_ID_SIZE + 40

/-- Modelled from the spec: dnet_setup_history_entry (packet.h, not in
    the sources under scrutiny) fills a HistoryEntry with the given id,
    size, offset and flags. -/
def dnet_setup_history_entry (id size offset : Nat) (flags : io_flags) :
    dnet_history_entry :=
  { id := id, size := size, offset := offset, flags := flags }

/-- The byte image of a HistoryEntry handed to the write path.  The
    exact serialization is immaterial to the claims; the fields are
    kept so the entry's recorded offset and size are visible. -/
def encode_history_entry (e : dnet_history_entry) : List Nat :=
  [e.id, e.size, e.offset]

/-- blob_write (backend.c:262): after stripping the IoAttr from the
    payload, a HISTORY write goes to blob_write_history; otherwise the
    payload is appended to the data log via blob_write_raw and, unless
    NO_HISTORY_UPDATE is set, a HistoryEntry recording the logical
    io.offset and io.size is built and written through
    blob_write_history with flags APPEND|HISTORY set and META cleared,
    io->size = sizeof(dnet_history_entry), io->offset = 0. -/
def blob_write (process_meta : List Nat → List Nat → List Nat)
    (s : blob_backend) (io : dnet_io_attr) (data : List Nat) : blob_backend :=
  if io.flags.history then
    blob_write_history process_meta s io data
  else
    let s1 := blob_write_raw s false io data
    if io.flags.noHistoryUpdate then s1
    else
      let e := dnet_setup_history_entry io.id io.size io.offset io.flags
      let io2 := { io with
        flags := { io.flags with append := true, history := true, meta := false }
        , size := sizeof_dnet_history_entry
        , offset := 0 }
      blob_write_history process_meta s1 io2 (encode_history_entry e)

/-- What blob_read resolves a request to: the byte range of the backing
    file it will serve (either zero-copy via dnet_req_set_fd or through
    pread). -/
structure blob_read_reply where
  offset : Nat
  length : Nat
deriving DecidableEq

/-- blob_read (backend.c:306): look the composite key up (kind from the
    HISTORY flag); a missing key fails (-ENOENT, no partial state).
    io.size = 0 means the whole record minus the DiskControl header
    (ctl.size - sizeof header); the served range starts at
    ctl.offset + sizeof header + io.offset.  When the command carried
    exactly the IoAttr, the reply streams size bytes from the fd;
    otherwise pread is capped by the remaining attribute size.  There
    is no bounds check of io.offset/io.size against the stored size. -/
def blob_read (s : blob_backend) (io : dnet_io_attr) (attr_size : Nat) :
    Except Int blob_read_reply :=
  let key : Nat × Bool := (io.origin, io.flags.history)
  match s.hash key with
  | none => .error (-2)
  | some ctl =>
    let size := if io.size = 0 then ctl.size - sizeof_blob_disk_control else io.size
    let offset := ctl.offset + sizeof_blob_disk_control + io.offset
    if attr_size = sizeof_dnet_io_attr then
      .ok { offset := offset, length := size }
    else
      .ok { offset := offset, length := min size (attr_size - sizeof_dnet_io_attr) }

instance : DecidableEq (Except Int blob_read_reply) := fun x y =>
  match x, y with
  | .ok a, .ok b =>
    if h : a = b then isTrue (by rw [h]) else isFalse (by simpa using h)
  | .error a, .error b =>
    if h : a = b then isTrue (by rw [h]) else isFalse (by simpa using h)
  | .ok _, .error _ => isFalse (by simp)
  | .error _, .ok _ => isFalse (by simp)

/-- blob_del (backend.c:410): unconditionally -1; nothing is touched. -/
def blob_del (s : blob_backend) (io : dnet_io_attr) : Int :=
  -1

/-- The command codes dispatched by the handlers under scrutiny
    (numeric DNET_CMD_* values live in packet.h). -/
inductive dnet_command where
  | write
  | read
  | list
  | stat
  | del
  | other
deriving DecidableEq

/-- blob_backend_command_handler (backend.c:416): dispatch on the
    command code.  backend_stat only formats statistics (no state of
    interest); LIST is -ENOTSUP; unknown commands are -EINVAL.  The
    returned pair is (state after the command, error code). -/
def blob_backend_command_handler (process_meta : List Nat → List Nat → List Nat)
    (s : blob_backend) (cmd : dnet_command) (io : dnet_io_attr)
    (data : List Nat) (attr_size : Nat) : blob_backend × Int :=
  match cmd with
  | .write => (blob_write process_meta s io data, 0)
  | .read => (s, match blob_read s io attr_size with
                 | .ok _ => 0
                 | .error e => e)
  | .list => (s, -95)
  | .stat => (s, 0)
  | .del => (s, blob_del s io)
  | .other => (s, -22)

/-! The in-memory cache (src/cache/cache.cpp). -/

/-- The cache map: identifier to cached bytes (boost::unordered_map
    from 64-byte keys to raw_data_t). -/
abbrev cache_map : Type := Nat → Option (List Nat)

/-- cache_t::write: insert-or-replace a copy of size bytes. -/
def cache_write (m : cache_map) (id : Nat) (d : List Nat) : cache_map :=
  fun k => if k = id then some d else m k

/-- cache_t::remove: erase the key (erase of a missing key is a no-op). -/
def cache_remove (m : cache_map) (id : Nat) : cache_map :=
  fun k => if k = id then none else m k

/-- dnet_cmd_cache_io (cache.cpp:157): err starts at -ENOTSUP.  WRITE
    stores io.size bytes under io.id and sets err = 0.  READ looks
    io.id up (a miss throws, caught as -ENOENT), fails with -EINVAL
    when io.offset + io.size exceeds the cached size, else replies from
    the cached bytes (dnet_send_read_data).  DEL erases cmd->id.id from
    the map but never assigns err, so it still returns -ENOTSUP.
    Commands without a case leave both map and err alone. -/
def dnet_cmd_cache_command (m : cache_map) (cmd : dnet_command)
    (cmd_id : Nat) (io : dnet_io_attr) (data : List Nat) : cache_map × Int :=
  match cmd with
  | .write => (cache_write m io.id (data.take io.size), 0)
  | .read =>
    match m io.id with
    | none => (m, -2)
    | some d =>
      if d.length < io.offset + io.size then (m, -22)
      else (m, 0)
  | .del => (cache_remove m cmd_id, -95)
  | _ => (m, -95)

/-! The recovery driver (src/recovery/dnet_recovery). -/

/-- The tail of dnet_recovery's __main__: the selected routine
    (merge.main or dc.main) returns result; the process exits with
    rc = int(not result), i.e. 0 when the routine reported success and
    1 otherwise. -/
def recovery_exit_code (result : Bool) : Nat :=
  if !result then 1 else 0

/-! Operation sequences and the rebuild invariant. -/

/-- The mutating operations of the backend: a raw append to either log,
    a history update through blob_write_history_meta, and a full WRITE
    command through blob_write. -/
inductive BlobOp where
  | raw (hist : Bool) (io : dnet_io_attr) (data : List Nat)
  | histMeta (process_meta : List Nat → List Nat) (io : dnet_io_attr)
  | cmdWrite (process_meta : List Nat → List Nat → List Nat)
      (io : dnet_io_attr) (data : List Nat)

/-- Run one operation. -/
def runOp (s : blob_backend) : BlobOp → blob_backend
  | .raw hist io data => blob_write_raw s hist io data
  | .histMeta pm io => blob_write_history_meta pm s io
  | .cmdWrite pm io data => blob_write pm s io data

/-- Run a sequence of operations. -/
def execOps (s : blob_backend) : List BlobOp → blob_backend
  | [] => s
  | op :: rest => execOps (runOp s op) rest

/-- A freshly configured backend: given block sizes, empty logs, zero
    tails, empty hash. -/
def initState (db hb : Nat) : blob_backend :=
  { data_bsize := db, history_bsize := hb
  , data_offset := 0, history_offset := 0
  , dataLog := [], histLog := []
  , hash := emptyIdx }

/-- The running invariant of a padding-free (block size 0) backend:
    tails are the log lengths, the startup scan rebuilds exactly the
    live hash, and every history index entry points at the start of a
    record bearing its key's identifier. -/
def Inv (s : blob_backend) : Prop :=
  s.data_bsize = 0 ∧ s.history_bsize = 0 ∧
  s.data_offset = logSize s.dataLog ∧
  s.history_offset = logSize s.histLog ∧
  rebuildIndex s = s.hash ∧
  (∀ id ctl, s.hash (id, true) = some ctl →
    ∃ r, recordAtPos 0 ctl.offset s.histLog = some r ∧ r.dc.id = id)

/-! Basic lemmas. -/

theorem or_remove_and_remove (x : Nat) :
    (x ||| BLOB_DISK_CTL_REMOVE) &&& BLOB_DISK_CTL_REMOVE = 1 := by
  simp [BLOB_DISK_CTL_REMOVE, Nat.and_one_is_mod]

theorem onDiskSize_pos (r : blob_record) : 0 < onDiskSize r := by
  simp only [onDiskSize, sizeof_blob_disk_control, DNET_ID_SIZE]
  omega

theorem onDiskSize_markRemoved (r : blob_record) :
    onDiskSize (markRemoved r) = onDiskSize r := rfl

theorem logSize_append (l : List blob_record) (r : blob_record) :
    logSize (l ++ [r]) = logSize l + onDiskSize r := by
  induction l with
  | nil => simp [logSize]
  | cons r0 rest ih => simp [logSize, ih]; omega

theorem logSize_markRemovedAt (l : List blob_record) :
    ∀ pos target, logSize (markRemovedAt pos target l) = logSize l := by
  induction l with
  | nil => intro pos target; rfl
  | cons r rest ih =>
    intro pos target
    by_cases h : pos = target
    · simp [markRemovedAt, h, logSize, onDiskSize_markRemoved]
    · simp [markRemovedAt, h, logSize, ih]

theorem length_markRemovedAt (l : List blob_record) :
    ∀ pos target, (markRemovedAt pos target l).length = l.length := by
  induction l with
  | nil => intro pos target; rfl
  | cons r rest ih =>
    intro pos target
    by_cases h : pos = target
    · simp [markRemovedAt, h]
    · simp [markRemovedAt, h, ih]

/-- The scan of an extended log: one more callback invocation at the
    old end-of-file position. -/
theorem scanFrom_append (h : Bool) (r : blob_record) (l : List blob_record) :
    ∀ pos idx, scanFrom h pos idx (l ++ [r]) =
      dnet_blob_iter r.dc (pos + logSize l) h (scanFrom h pos idx l) := by
  induction l with
  | nil => intro pos idx; simp [scanFrom, logSize]
  | cons r0 rest ih =>
    intro pos idx
    show scanFrom h (pos + onDiskSize r0) (dnet_blob_iter r0.dc pos h idx) (rest ++ [r]) =
      dnet_blob_iter r.dc (pos + (onDiskSize r0 + logSize rest)) h
        (scanFrom h (pos + onDiskSize r0) (dnet_blob_iter r0.dc pos h idx) rest)
    rw [ih, Nat.add_assoc]

/-- The scan's value at a key depends only on the starting index's
    value at that key. -/
theorem scanFrom_congr_at (h : Bool) (l : List blob_record) :
    ∀ pos (idx1 idx2 : Idx) k, idx1 k = idx2 k →
      scanFrom h pos idx1 l k = scanFrom h pos idx2 l k := by
  induction l with
  | nil => intro pos idx1 idx2 k hk; simpa [scanFrom] using hk
  | cons r rest ih =>
    intro pos idx1 idx2 k hk
    simp only [scanFrom]
    apply ih
    unfold dnet_blob_iter
    by_cases hrem : r.dc.flags &&& BLOB_DISK_CTL_REMOVE ≠ 0
    · simp only [if_pos hrem]; exact hk
    · simp only [if_neg hrem, idxUpdate]
      by_cases hke : k = (r.dc.id, h)
      · simp [hke]
      · simp [hke, hk]

/-- The scan of a log of one kind never writes keys of the other kind. -/
theorem scanFrom_other_kind (h : Bool) (l : List blob_record) :
    ∀ pos idx (k : Nat × Bool), k.2 ≠ h → scanFrom h pos idx l k = idx k := by
  induction l with
  | nil => intro pos idx k hk; rfl
  | cons r rest ih =>
    intro pos idx k hk
    simp only [scanFrom]
    rw [ih _ _ _ hk]
    unfold dnet_blob_iter
    by_cases hrem : r.dc.flags &&& BLOB_DISK_CTL_REMOVE ≠ 0
    · simp [hrem]
    · have : k ≠ (r.dc.id, h) := by
        intro he; exact hk (by rw [he])
      simp [hrem, idxUpdate, this]

/-- A freshly appended record is found at the old end-of-file offset. -/
theorem recordAtPos_append_last (r : blob_record) (l : List blob_record) :
    ∀ pos, recordAtPos pos (pos + logSize l) (l ++ [r]) = some r := by
  induction l with
  | nil => intro pos; simp [recordAtPos, logSize]
  | cons r0 rest ih =>
    intro pos
    have hne : pos ≠ pos + logSize (r0 :: rest) := by
      have := onDiskSize_pos r0
      simp only [logSize]
      omega
    show recordAtPos pos (pos + logSize (r0 :: rest)) ((r0 :: rest) ++ [r]) = some r
    simp only [List.cons_append, recordAtPos, if_neg hne]
    have : pos + logSize (r0 :: rest) = (pos + onDiskSize r0) + logSize rest := by
      simp only [logSize]; omega
    rw [this]
    exact ih (pos + onDiskSize r0)

/-- Appending does not disturb the record found at an existing offset. -/
theorem recordAtPos_append_of_found (r r' : blob_record) (l : List blob_record) :
    ∀ pos target, recordAtPos pos target l = some r →
      recordAtPos pos target (l ++ [r']) = some r := by
  induction l with
  | nil => intro pos target hfind; exact absurd hfind (by simp [recordAtPos])
  | cons r0 rest ih =>
    intro pos target hfind
    by_cases hp : pos = target
    · simp only [recordAtPos, if_pos hp] at hfind
      simp only [List.cons_append, recordAtPos, if_pos hp, hfind]
    · simp only [recordAtPos, if_neg hp] at hfind
      simp only [List.cons_append, recordAtPos, if_neg hp]
      exact ih _ _ hfind

/-- The in-place header rewrite relocates nothing: lookups at the
    rewritten offset see the marked record, lookups elsewhere are
    untouched. -/
theorem recordAtPos_markRemovedAt (l : List blob_record) :
    ∀ pos target q, recordAtPos pos q (markRemovedAt pos target l) =
      (recordAtPos pos q l).map (fun r => if q = target then markRemoved r else r) := by
  induction l with
  | nil => intro pos target q; rfl
  | cons r rest ih =>
    intro pos target q
    by_cases hp : pos = target
    · subst hp
      by_cases hq : q = pos
      · subst hq
        simp [markRemovedAt, recordAtPos]
      · have hq' : pos ≠ q := fun he => hq he.symm
        simp only [markRemovedAt, if_pos rfl, recordAtPos, if_neg hq',
          onDiskSize_markRemoved]
        have hqt : ¬ q = pos := hq
        simp only [if_neg hqt]
        cases recordAtPos (pos + onDiskSize r) q rest <;> simp
    · by_cases hq : pos = q
      · subst hq
        have hqt : ¬ pos = target := hp
        simp [markRemovedAt, recordAtPos, if_neg hp, hqt]
      · simp only [markRemovedAt, if_neg hp, recordAtPos, if_neg hq, ih]

/-- Scanning a log in which one record of key (id, h) was tombstoned in
    place gives the same result at every other key. -/
theorem scanFrom_markRemovedAt (h : Bool) (l : List blob_record) :
    ∀ pos target idx (k : Nat × Bool),
      (∀ r, recordAtPos pos target l = some r → (r.dc.id, h) ≠ k) →
      scanFrom h pos idx (markRemovedAt pos target l) k = scanFrom h pos idx l k := by
  induction l with
  | nil => intro pos target idx k hother; rfl
  | cons r rest ih =>
    intro pos target idx k hother
    by_cases hp : pos = target
    · have hkey : (r.dc.id, h) ≠ k := by
        apply hother
        simp [recordAtPos, hp]
      simp only [markRemovedAt, if_pos hp, scanFrom, onDiskSize_markRemoved]
      apply scanFrom_congr_at
      unfold dnet_blob_iter markRemoved
      simp only
      rw [if_pos]
      · by_cases hrem : r.dc.flags &&& BLOB_DISK_CTL_REMOVE ≠ 0
        · simp only [if_pos hrem]
        · simp only [if_neg hrem, idxUpdate]
          have : k ≠ (r.dc.id, h) := fun he => hkey he.symm
          simp [this]
      · simp [or_remove_and_remove]
    · simp only [markRemovedAt, if_neg hp, scanFrom]
      apply ih
      intro r' hr'
      apply hother
      simp only [recordAtPos, if_neg hp]
      exact hr'

/-! Unfolding helpers for the write paths. -/

theorem blob_pad_zero (len : Nat) : blob_pad 0 len = 0 := rfl

theorem mkRecord_flags_live (b : Nat) (io : dnet_io_attr) (data : List Nat) :
    (mkRecord b io data).dc.flags &&& BLOB_DISK_CTL_REMOVE = 0 := by
  show (0 : Nat) &&& BLOB_DISK_CTL_REMOVE = 0
  decide

theorem markRemoved_dc_id (r : blob_record) : (markRemoved r).dc.id = r.dc.id := rfl

theorem onDiskSize_mkRecord (b : Nat) (io : dnet_io_attr) (data : List Nat) :
    onDiskSize (mkRecord b io data) =
      sizeof_blob_disk_control + io.size +
        blob_pad b (sizeof_blob_disk_control + io.size) := rfl

theorem blob_write_raw_false (s : blob_backend) (io : dnet_io_attr) (data : List Nat) :
    blob_write_raw s false io data =
    { s with dataLog := s.dataLog ++ [mkRecord s.data_bsize io data]
           , hash := idxUpdate s.hash (io.origin, false)
               { offset := s.data_offset
               , size := onDiskSize (mkRecord s.data_bsize io data) }
           , data_offset :=
               s.data_offset + onDiskSize (mkRecord s.data_bsize io data) } := rfl

theorem blob_write_raw_true (s : blob_backend) (io : dnet_io_attr) (data : List Nat) :
    blob_write_raw s true io data =
    { s with histLog := s.histLog ++ [mkRecord s.history_bsize io data]
           , hash := idxUpdate s.hash (io.origin, true)
               { offset := s.history_offset
               , size := onDiskSize (mkRecord s.history_bsize io data) }
           , history_offset :=
               s.history_offset + onDiskSize (mkRecord s.history_bsize io data) } := rfl

theorem blob_write_history_meta_not_found (pm : List Nat → List Nat)
    (s : blob_backend) (io : dnet_io_attr)
    (h : s.hash (io.origin, true) = none) :
    blob_write_history_meta pm s io =
      blob_write_raw s true { io with size := (pm []).length } (pm []) := by
  simp only [blob_write_history_meta, h]

theorem blob_write_history_meta_found (pm : List Nat → List Nat)
    (s : blob_backend) (io : dnet_io_attr) (ctl : blob_ram_control) (r : blob_record)
    (h1 : s.hash (io.origin, true) = some ctl)
    (h2 : recordAtPos 0 ctl.offset s.histLog = some r) :
    blob_write_history_meta pm s io =
      blob_write_raw { s with histLog := markRemovedAt 0 ctl.offset s.histLog } true
        { io with size := (pm (r.payload.take r.dc.size)).length }
        (pm (r.payload.take r.dc.size)) := by
  simp only [blob_write_history_meta, h1, h2]

theorem blob_write_history_meta_stale (pm : List Nat → List Nat)
    (s : blob_backend) (io : dnet_io_attr) (ctl : blob_ram_control)
    (h1 : s.hash (io.origin, true) = some ctl)
    (h2 : recordAtPos 0 ctl.offset s.histLog = none) :
    blob_write_history_meta pm s io = s := by
  simp only [blob_write_history_meta, h1, h2]

theorem dnet_blob_iter_live (dc : blob_disk_control) (p : Nat) (h : Bool) (idx : Idx)
    (hl : dc.flags &&& BLOB_DISK_CTL_REMOVE = 0) :
    dnet_blob_iter dc p h idx =
      idxUpdate idx (dc.id, h)
        { offset := p, size := dc.size + sizeof_blob_disk_control } := by
  simp [dnet_blob_iter, hl]

/-- Scanning one kind commutes with updating the base index at a key of
    the other kind. -/
theorem scanFrom_idxUpdate_other_kind (h : Bool) (l : List blob_record) (pos : Nat)
    (idx : Idx) (k : Nat × Bool) (v : blob_ram_control) (hk : k.2 ≠ h) :
    scanFrom h pos (idxUpdate idx k v) l = idxUpdate (scanFrom h pos idx l) k v := by
  funext k'
  by_cases he : k' = k
  · subst he
    rw [scanFrom_other_kind h l pos _ k' hk]
    simp [idxUpdate]
  · rw [scanFrom_congr_at h l pos (idxUpdate idx k v) idx k' (by simp [idxUpdate, he])]
    simp [idxUpdate, he]

/-- A raw append on a padding-free backend preserves the invariant. -/
theorem Inv_blob_write_raw (s : blob_backend) (hist : Bool) (io : dnet_io_attr)
    (data : List Nat) (hs : Inv s) : Inv (blob_write_raw s hist io data) := by
  obtain ⟨hdb, hhb, hdo, hho, hreb, hpt⟩ := hs
  cases hist
  case false =>
    rw [blob_write_raw_false]
    refine ⟨hdb, hhb, ?_, hho, ?_, ?_⟩
    · show s.data_offset + onDiskSize (mkRecord s.data_bsize io data) =
        logSize (s.dataLog ++ [mkRecord s.data_bsize io data])
      rw [logSize_append, hdo]
    · show scanFrom true 0
        (scanFrom false 0 emptyIdx (s.dataLog ++ [mkRecord s.data_bsize io data]))
        s.histLog = _
      rw [scanFrom_append, dnet_blob_iter_live _ _ _ _ (mkRecord_flags_live _ _ _)]
      rw [scanFrom_idxUpdate_other_kind true s.histLog 0 _ _ _ (by simp)]
      show idxUpdate (rebuildIndex s) _ _ = _
      rw [hreb]
      have hv : ({ offset := 0 + logSize s.dataLog
                 , size := (mkRecord s.data_bsize io data).dc.size +
                     sizeof_blob_disk_control } : blob_ram_control) =
          { offset := s.data_offset
          , size := onDiskSize (mkRecord s.data_bsize io data) } := by
        simp only [onDiskSize, mkRecord, hdb, blob_pad_zero, hdo,
          blob_ram_control.mk.injEq]
        omega
      rw [hv]
      rfl
    · intro id ctl' h'
      replace h' : idxUpdate s.hash (io.origin, false)
          { offset := s.data_offset
          , size := onDiskSize (mkRecord s.data_bsize io data) } (id, true) =
          some ctl' := h'
      have hne : ((id, true) : Nat × Bool) ≠ (io.origin, false) := by simp
      rw [idxUpdate, if_neg hne] at h'
      exact hpt id ctl' h'
  case true =>
    rw [blob_write_raw_true]
    refine ⟨hdb, hhb, hdo, ?_, ?_, ?_⟩
    · show s.history_offset + onDiskSize (mkRecord s.history_bsize io data) =
        logSize (s.histLog ++ [mkRecord s.history_bsize io data])
      rw [logSize_append, hho]
    · show scanFrom true 0 (scanFrom false 0 emptyIdx s.dataLog)
        (s.histLog ++ [mkRecord s.history_bsize io data]) = _
      rw [scanFrom_append, dnet_blob_iter_live _ _ _ _ (mkRecord_flags_live _ _ _)]
      show idxUpdate (rebuildIndex s) _ _ = _
      rw [hreb]
      have hv : ({ offset := 0 + logSize s.histLog
                 , size := (mkRecord s.history_bsize io data).dc.size +
                     sizeof_blob_disk_control } : blob_ram_control) =
          { offset := s.history_offset
          , size := onDiskSize (mkRecord s.history_bsize io data) } := by
        simp only [onDiskSize, mkRecord, hhb, blob_pad_zero, hho,
          blob_ram_control.mk.injEq]
        omega
      rw [hv]
      rfl
    · intro id ctl' h'
      replace h' : idxUpdate s.hash (io.origin, true)
          { offset := s.history_offset
          , size := onDiskSize (mkRecord s.history_bsize io data) } (id, true) =
          some ctl' := h'
      rw [idxUpdate] at h'
      by_cases hk : ((id, true) : Nat × Bool) = (io.origin, true)
      · rw [if_pos hk] at h'
        have hid : id = io.origin := by simpa using hk
        have hctl : ctl' =
            { offset := s.history_offset
            , size := onDiskSize (mkRecord s.history_bsize io data) } :=
          (Option.some.inj h').symm
        refine ⟨mkRecord s.history_bsize io data, ?_, by rw [hid]; rfl⟩
        rw [hctl]
        show recordAtPos 0 s.history_offset
          (s.histLog ++ [mkRecord s.history_bsize io data]) = _
        rw [hho]
        have h8 := recordAtPos_append_last (mkRecord s.history_bsize io data) s.histLog 0
        simpa using h8
      · rw [if_neg hk] at h'
        obtain ⟨r1, hr1, hid1⟩ := hpt id ctl' h'
        exact ⟨r1, recordAtPos_append_of_found _ _ _ _ _ hr1, hid1⟩

theorem dnet_blob_iter_mkRecord (b : Nat) (io : dnet_io_attr) (data : List Nat)
    (p : Nat) (h : Bool) (idx : Idx) :
    dnet_blob_iter (mkRecord b io data).dc p h idx =
      idxUpdate idx (io.origin, h)
        { offset := p, size := io.size + sizeof_blob_disk_control } := by
  rw [dnet_blob_iter_live _ _ _ _ (mkRecord_flags_live _ _ _)]
  rfl

/-- A history update through blob_write_history_meta preserves the
    invariant. -/
theorem Inv_blob_write_history_meta (pm : List Nat → List Nat) (s : blob_backend)
    (io : dnet_io_attr) (hs : Inv s) : Inv (blob_write_history_meta pm s io) := by
  cases hc : s.hash (io.origin, true) with
  | none =>
    rw [blob_write_history_meta_not_found pm s io hc]
    exact Inv_blob_write_raw _ _ _ _ hs
  | some ctl =>
    obtain ⟨hdb, hhb, hdo, hho, hreb, hpt⟩ := hs
    obtain ⟨r0, hr0, hid0⟩ := hpt io.origin ctl hc
    rw [blob_write_history_meta_found pm s io ctl r0 hc hr0]
    rw [show blob_write_raw { s with histLog := markRemovedAt 0 ctl.offset s.histLog }
          true { io with size := (pm (r0.payload.take r0.dc.size)).length }
          (pm (r0.payload.take r0.dc.size)) =
        { s with
            histLog := markRemovedAt 0 ctl.offset s.histLog ++
              [mkRecord s.history_bsize
                { io with size := (pm (r0.payload.take r0.dc.size)).length }
                (pm (r0.payload.take r0.dc.size))]
          , hash := idxUpdate s.hash (io.origin, true)
              { offset := s.history_offset
              , size := onDiskSize (mkRecord s.history_bsize
                  { io with size := (pm (r0.payload.take r0.dc.size)).length }
                  (pm (r0.payload.take r0.dc.size))) }
          , history_offset := s.history_offset +
              onDiskSize (mkRecord s.history_bsize
                { io with size := (pm (r0.payload.take r0.dc.size)).length }
                (pm (r0.payload.take r0.dc.size))) } from rfl]
    refine ⟨hdb, hhb, hdo, ?_, ?_, ?_⟩
    · show s.history_offset + onDiskSize _ =
        logSize (markRemovedAt 0 ctl.offset s.histLog ++ [_])
      rw [logSize_append, logSize_markRemovedAt, hho]
    · show scanFrom true 0 (scanFrom false 0 emptyIdx s.dataLog)
        (markRemovedAt 0 ctl.offset s.histLog ++ [_]) = _
      rw [scanFrom_append, dnet_blob_iter_mkRecord]
      have hval : ({ offset := 0 + logSize (markRemovedAt 0 ctl.offset s.histLog)
                   , size := ({ io with
                       size := (pm (r0.payload.take r0.dc.size)).length } :
                         dnet_io_attr).size + sizeof_blob_disk_control } :
                     blob_ram_control) =
          { offset := s.history_offset
          , size := onDiskSize (mkRecord s.history_bsize
              { io with size := (pm (r0.payload.take r0.dc.size)).length }
              (pm (r0.payload.take r0.dc.size))) } := by
        rw [logSize_markRemovedAt]
        simp only [onDiskSize, mkRecord, hhb, blob_pad_zero, hho,
          blob_ram_control.mk.injEq]
        omega
      rw [hval]
      funext k'
      by_cases hk' : k' = ((io.origin, true) : Nat × Bool)
      · simp [idxUpdate, hk']
      · simp only [idxUpdate, if_neg hk']
        rw [scanFrom_markRemovedAt true s.histLog 0 ctl.offset _ k' ?side]
        · exact congrFun hreb k'
        case side =>
          intro r' hfind
          have hr' : r' = r0 := (Option.some.inj (hr0.symm.trans hfind)).symm
          subst hr'
          intro he
          exact hk' (by rw [← he, hid0])
    · intro id ctl2 h2
      replace h2 : idxUpdate s.hash (io.origin, true)
          { offset := s.history_offset
          , size := onDiskSize (mkRecord s.history_bsize
              { io with size := (pm (r0.payload.take r0.dc.size)).length }
              (pm (r0.payload.take r0.dc.size))) } (id, true) = some ctl2 := h2
      rw [idxUpdate] at h2
      by_cases hk2 : ((id, true) : Nat × Bool) = (io.origin, true)
      · rw [if_pos hk2] at h2
        have hid2 : id = io.origin := by simpa using hk2
        have hctl2 : ctl2 =
            { offset := s.history_offset
            , size := onDiskSize (mkRecord s.history_bsize
                { io with size := (pm (r0.payload.take r0.dc.size)).length }
                (pm (r0.payload.take r0.dc.size))) } :=
          (Option.some.inj h2).symm
        refine ⟨mkRecord s.history_bsize
            { io with size := (pm (r0.payload.take r0.dc.size)).length }
            (pm (r0.payload.take r0.dc.size)), ?_, by rw [hid2]; rfl⟩
        rw [hctl2]
        show recordAtPos 0 s.history_offset
          (markRemovedAt 0 ctl.offset s.histLog ++ [_]) = _
        rw [hho, ← logSize_markRemovedAt s.histLog 0 ctl.offset]
        have h8 := recordAtPos_append_last
          (mkRecord s.history_bsize
            { io with size := (pm (r0.payload.take r0.dc.size)).length }
            (pm (r0.payload.take r0.dc.size)))
          (markRemovedAt 0 ctl.offset s.histLog) 0
        simpa using h8
      · rw [if_neg hk2] at h2
        obtain ⟨r2, hr2, hid2⟩ := hpt id ctl2 h2
        have hmark : recordAtPos 0 ctl2.offset
            (markRemovedAt 0 ctl.offset s.histLog) =
            some (if ctl2.offset = ctl.offset then markRemoved r2 else r2) := by
          rw [recordAtPos_markRemovedAt, hr2]
          rfl
        refine ⟨if ctl2.offset = ctl.offset then markRemoved r2 else r2,
          recordAtPos_append_of_found _ _ _ _ _ hmark, ?_⟩
        by_cases hoff : ctl2.offset = ctl.offset
        · rw [if_pos hoff, markRemoved_dc_id, hid2]
        · rw [if_neg hoff, hid2]

/-- A full WRITE command preserves the invariant. -/
theorem Inv_blob_write (pm : List Nat → List Nat → List Nat) (s : blob_backend)
    (io : dnet_io_attr) (data : List Nat) (hs : Inv s) :
    Inv (blob_write pm s io data) := by
  unfold blob_write blob_write_history backend_write_history
  by_cases h1 : io.flags.history
  · simp only [h1, if_true]
    exact Inv_blob_write_history_meta _ _ _ hs
  · simp only [h1, Bool.false_eq_true, if_false]
    by_cases h2 : io.flags.noHistoryUpdate
    · simp only [h2, if_true]
      exact Inv_blob_write_raw _ _ _ _ hs
    · simp only [h2, Bool.false_eq_true, if_false]
      exact Inv_blob_write_history_meta _ _ _ (Inv_blob_write_raw _ _ _ _ hs)

/-- Every operation preserves the invariant. -/
theorem Inv_runOp (s : blob_backend) (op : BlobOp) (hs : Inv s) :
    Inv (runOp s op) := by
  cases op with
  | raw hist io data => exact Inv_blob_write_raw _ _ _ _ hs
  | histMeta pm io => exact Inv_blob_write_history_meta _ _ _ hs
  | cmdWrite pm io data => exact Inv_blob_write _ _ _ _ hs

/-- Sequences of operations preserve the invariant. -/
theorem Inv_execOps (ops : List BlobOp) :
    ∀ s, Inv s → Inv (execOps s ops) := by
  induction ops with
  | nil => intro s hs; exact hs
  | cons op rest ih => intro s hs; exact ih _ (Inv_runOp s op hs)

/-- The freshly configured padding-free backend satisfies the invariant. -/
theorem Inv_initState : Inv (initState 0 0) := by
  refine ⟨rfl, rfl, rfl, rfl, rfl, ?_⟩
  intro id ctl h
  exact Option.noConfusion h

/-- Padding always completes a length to a multiple of the block size. -/
theorem blob_pad_aligns (B len : Nat) (hB : 0 < B) :
    (len + blob_pad B len) % B = 0 := by
  unfold blob_pad
  have hBne : B ≠ 0 := Nat.pos_iff_ne_zero.mp hB
  rw [if_neg hBne]
  by_cases hr : len % B = 0
  · rw [if_pos hr, Nat.add_zero]
    exact hr
  · rw [if_neg hr]
    have hlt : len % B < B := Nat.mod_lt _ hB
    have hdm := Nat.div_add_mod len B
    have h1 : len + (B - len % B) = B * (len / B + 1) := by
      rw [Nat.mul_add, Nat.mul_one]
      omega
    rw [h1, Nat.mul_mod_right]

/-- C1: for every successful append of a record for key k on a log
    (data or history), immediately after the append the index entry for
    k satisfies index[k].offset + index[k].size == log.tail; the
    entry's offset is the tail before the append and its size is the
    full on-disk size (header + payload + padding) of the new record. -/
theorem c1_append_offset_plus_size_eq_tail (s : blob_backend) (hist : Bool)
    (io : dnet_io_attr) (data : List Nat) :
    ∃ c : blob_ram_control,
      (blob_write_raw s hist io data).hash (io.origin, hist) = some c ∧
      c.offset = tailOf s hist ∧
      c.size = sizeof_blob_disk_control + io.size +
        blob_pad (bsizeOf s hist) (sizeof_blob_disk_control + io.size) ∧
      c.offset + c.size = tailOf (blob_write_raw s hist io data) hist := by
  cases hist
  case false =>
    rw [blob_write_raw_false]
    refine ⟨{ offset := s.data_offset
            , size := onDiskSize (mkRecord s.data_bsize io data) }, ?_, rfl, rfl, rfl⟩
    show idxUpdate s.hash (io.origin, false) _ (io.origin, false) = _
    simp [idxUpdate]
  case true =>
    rw [blob_write_raw_true]
    refine ⟨{ offset := s.history_offset
            , size := onDiskSize (mkRecord s.history_bsize io data) }, ?_, rfl, rfl, rfl⟩
    show idxUpdate s.hash (io.origin, true) _ (io.origin, true) = _
    simp [idxUpdate]

/-- C5: on a log with nonzero block size B, every successful append
    advances the tail by header + payload + padding, which is a
    multiple of B, so a B-aligned tail stays B-aligned after every
    append (e.g. B = 64, IdLen = 64, 10-byte payload: 80 + 10 + 38 =
    128 bytes; see the witness for data_tail == 128). -/
theorem c5_aligned_append (s : blob_backend) (hist : Bool) (io : dnet_io_attr)
    (data : List Nat) (hB : 0 < bsizeOf s hist) :
    tailOf (blob_write_raw s hist io data) hist =
      tailOf s hist + (sizeof_blob_disk_control + io.size +
        blob_pad (bsizeOf s hist) (sizeof_blob_disk_control + io.size)) ∧
    (sizeof_blob_disk_control + io.size +
        blob_pad (bsizeOf s hist) (sizeof_blob_disk_control + io.size)) %
      bsizeOf s hist = 0 ∧
    (tailOf s hist % bsizeOf s hist = 0 →
      tailOf (blob_write_raw s hist io data) hist % bsizeOf s hist = 0) := by
  have h1 : tailOf (blob_write_raw s hist io data) hist =
      tailOf s hist + (sizeof_blob_disk_control + io.size +
        blob_pad (bsizeOf s hist) (sizeof_blob_disk_control + io.size)) := by
    cases hist <;> rfl
  have h2 := blob_pad_aligns (bsizeOf s hist) (sizeof_blob_disk_control + io.size) hB
  refine ⟨h1, h2, ?_⟩
  intro h0
  rw [h1, Nat.add_mod, h0, h2]
  simp

/-- C5 witness: block size 64, IdLen 64, a 10-byte payload on the data
    log of a fresh backend: the on-disk record is 80 + 10 + 38 = 128
    bytes and data_tail == 128 afterwards. -/
theorem c5_aligned_append_witness :
    0 < bsizeOf (initState 64 0) false ∧
    tailOf (initState 64 0) false % bsizeOf (initState 64 0) false = 0 ∧
    tailOf (blob_write_raw (initState 64 0) false
      { id := 1, origin := 1, offset := 0, size := 10
      , flags := { history := false, append := false
                 , noHistoryUpdate := false, meta := false } }
      (List.replicate 10 7)) false % bsizeOf (initState 64 0) false = 0 ∧
    (blob_write_raw (initState 64 0) false
      { id := 1, origin := 1, offset := 0, size := 10
      , flags := { history := false, append := false
                 , noHistoryUpdate := false, meta := false } }
      (List.replicate 10 7)).data_offset = 128 := by
  refine ⟨by decide, by decide, ?_, by decide⟩
  exact (c5_aligned_append (initState 64 0) false
    { id := 1, origin := 1, offset := 0, size := 10
    , flags := { history := false, append := false
               , noHistoryUpdate := false, meta := false } }
    (List.replicate 10 7) (by decide)).2.2 (by decide)

/-- C8: a DEL command dispatched to the blob backend returns -1
    (command not implemented) and leaves the index and both log files
    unchanged. -/
theorem c8_del_unsupported (pm : List Nat → List Nat → List Nat)
    (s : blob_backend) (io : dnet_io_attr) (data : List Nat) (attr_size : Nat) :
    blob_backend_command_handler pm s .del io data attr_size = (s, -1) ∧
    blob_del s io = -1 ∧
    (blob_backend_command_handler pm s .del io data attr_size).1.hash = s.hash ∧
    (blob_backend_command_handler pm s .del io data attr_size).1.dataLog = s.dataLog ∧
    (blob_backend_command_handler pm s .del io data attr_size).1.histLog = s.histLog :=
  ⟨rfl, rfl, rfl, rfl, rfl⟩

/-- C9: the recovery driver exits with rc = int(not result): 0 exactly
    when the selected routine reported success, 1 otherwise. -/
theorem c9_recovery_exit_code : ∀ result : Bool,
    (recovery_exit_code result = 0 ↔ result = true) ∧
    (recovery_exit_code result = 1 ↔ result = false) := by decide

/-- C10: in the cache command handler, DEL erases the key from the map
    yet the returned error stays at the initial -ENOTSUP (-95), because
    the DEL branch never assigns err.  So a DEL on a present key both
    removes the entry and reports the operation as unsupported. -/
theorem c10_cache_del_erases_but_enotsup (m : cache_map) (cmd_id : Nat)
    (io : dnet_io_attr) (data : List Nat) (d : List Nat)
    (hpresent : m cmd_id = some d) :
    (dnet_cmd_cache_command m .del cmd_id io data).1 cmd_id = none ∧
    (dnet_cmd_cache_command m .del cmd_id io data).2 = -95 := by
  constructor
  · show cache_remove m cmd_id cmd_id = none
    simp [cache_remove]
  · rfl

/-- C10 witness: a concrete one-entry cache. -/
theorem c10_cache_del_witness :
    ((fun k => if k = 5 then some [1, 2] else none) : cache_map) 5 = some [1, 2] ∧
    ((dnet_cmd_cache_command (fun k => if k = 5 then some [1, 2] else none) .del 5
      { id := 5, origin := 5, offset := 0, size := 0
      , flags := { history := false, append := false
                 , noHistoryUpdate := false, meta := false } } []).1 5 = none ∧
     (dnet_cmd_cache_command (fun k => if k = 5 then some [1, 2] else none) .del 5
      { id := 5, origin := 5, offset := 0, size := 0
      , flags := { history := false, append := false
                 , noHistoryUpdate := false, meta := false } } []).2 = -95) :=
  ⟨by decide, c10_cache_del_erases_but_enotsup _ 5 _ [] [1, 2] (by decide)⟩

/-- C2 counterexample: the blob READ handler performs no bounds check.
    A 5-byte record is indexed under id 7; a READ with io.offset = 100,
    io.size = 50 (far beyond the stored size) succeeds with the
    requested length instead of failing with -EINVAL. -/
theorem c2_read_bounds_counterexample :
    (blob_write_raw (initState 0 0) false
      { id := 7, origin := 7, offset := 0, size := 5
      , flags := { history := false, append := false
                 , noHistoryUpdate := false, meta := false } }
      [1, 2, 3, 4, 5]).hash (7, false) = some { offset := 0, size := 85 } ∧
    85 - sizeof_blob_disk_control < 100 + 50 ∧
    blob_read (blob_write_raw (initState 0 0) false
      { id := 7, origin := 7, offset := 0, size := 5
      , flags := { history := false, append := false
                 , noHistoryUpdate := false, meta := false } }
      [1, 2, 3, 4, 5])
      { id := 7, origin := 7, offset := 100, size := 50
      , flags := { history := false, append := false
                 , noHistoryUpdate := false, meta := false } }
      sizeof_dnet_io_attr = .ok { offset := 180, length := 50 } ∧
    blob_read (blob_write_raw (initState 0 0) false
      { id := 7, origin := 7, offset := 0, size := 5
      , flags := { history := false, append := false
                 , noHistoryUpdate := false, meta := false } }
      [1, 2, 3, 4, 5])
      { id := 7, origin := 7, offset := 100, size := 50
      , flags := { history := false, append := false
                 , noHistoryUpdate := false, meta := false } }
      sizeof_dnet_io_attr ≠ .error (-22) := by
  refine ⟨by decide, by decide, by decide, by decide⟩

/-- C2 (amended): the io.offset + io.size bounds check lives in the
    cache READ handler, which fails with -EINVAL (without touching the
    cache) when it is violated; the blob READ handler performs no such
    check, and on an indexed record with io.size == 0 it serves the
    whole record minus the DiskControl header. -/
theorem c2_read_bounds_amended :
    (∀ (m : cache_map) (cmd_id : Nat) (io : dnet_io_attr) (data d : List Nat),
      m io.id = some d → d.length < io.offset + io.size →
      dnet_cmd_cache_command m .read cmd_id io data = (m, -22)) ∧
    (∀ (s : blob_backend) (io : dnet_io_attr) (ctl : blob_ram_control),
      io.size = 0 → s.hash (io.origin, io.flags.history) = some ctl →
      blob_read s io sizeof_dnet_io_attr =
        .ok { offset := ctl.offset + sizeof_blob_disk_control + io.offset
            , length := ctl.size - sizeof_blob_disk_control }) := by
  constructor
  · intro m cmd_id io data d hd hlen
    simp only [dnet_cmd_cache_command, hd]
    rw [if_pos hlen]
  · intro s io ctl hsz hctl
    simp [blob_read, hctl, hsz]

/-- C2 witness: a cache holding 2 bytes under id 3 rejects a READ at
    offset 5 with -EINVAL; a 3-byte blob record read with io.size == 0
    yields the 3 payload bytes at offset 80. -/
theorem c2_read_bounds_witness :
    (((fun k => if k = 3 then some [9, 9] else none) : cache_map) 3 = some [9, 9] ∧
     dnet_cmd_cache_command (fun k => if k = 3 then some [9, 9] else none) .read 0
      { id := 3, origin := 3, offset := 5, size := 0
      , flags := { history := false, append := false
                 , noHistoryUpdate := false, meta := false } } [] =
      ((fun k => if k = 3 then some [9, 9] else none), -22)) ∧
    ((blob_write_raw (initState 0 0) false
      { id := 7, origin := 7, offset := 0, size := 3
      , flags := { history := false, append := false
                 , noHistoryUpdate := false, meta := false } }
      [1, 2, 3]).hash (7, false) = some { offset := 0, size := 83 } ∧
     blob_read (blob_write_raw (initState 0 0) false
      { id := 7, origin := 7, offset := 0, size := 3
      , flags := { history := false, append := false
                 , noHistoryUpdate := false, meta := false } }
      [1, 2, 3])
      { id := 7, origin := 7, offset := 0, size := 0
      , flags := { history := false, append := false
                 , noHistoryUpdate := false, meta := false } }
      sizeof_dnet_io_attr = .ok { offset := 80, length := 3 }) :=
  ⟨⟨by decide, c2_read_bounds_amended.1 _ 0 _ [] [9, 9] (by decide) (by decide)⟩,
   ⟨by decide, c2_read_bounds_amended.2 _ _ { offset := 0, size := 83 }
      (by decide) (by decide)⟩⟩

/-- C3 counterexample: with block size 64 and a 10-byte payload the
    write path records an on-disk size of 128 (80-byte header + 10-byte
    payload + 38 bytes of padding), but the startup-scan callback
    re-inserts the same record with size 90: the padding is omitted, so
    the rebuilt entry differs from the write path's. -/
theorem c3_scan_size_counterexample :
    (blob_write_raw (initState 64 0) false
      { id := 7, origin := 7, offset := 0, size := 10
      , flags := { history := false, append := false
                 , noHistoryUpdate := false, meta := false } }
      (List.replicate 10 3)).hash (7, false) = some { offset := 0, size := 128 } ∧
    rebuildIndex (blob_write_raw (initState 64 0) false
      { id := 7, origin := 7, offset := 0, size := 10
      , flags := { history := false, append := false
                 , noHistoryUpdate := false, meta := false } }
      (List.replicate 10 3)) (7, false) = some { offset := 0, size := 90 } ∧
    sizeof_blob_disk_control + 10 +
      blob_pad 64 (sizeof_blob_disk_control + 10) = 128 ∧
    (90 : Nat) ≠ 128 := by
  refine ⟨by decide, by decide, by decide, by decide⟩

/-- C3 (amended): for a live record the startup-scan callback inserts
    (position, dc.size + sizeof(DiskControl)) -- header plus payload,
    with no padding term -- which equals the on-disk size the write
    path records exactly when the record's alignment padding is zero
    (in particular always under block size 0). -/
theorem c3_scan_size_amended (b : Nat) (io : dnet_io_attr) (data : List Nat)
    (pos : Nat) (h : Bool) (idx : Idx) :
    dnet_blob_iter (mkRecord b io data).dc pos h idx (io.origin, h) =
      some { offset := pos, size := io.size + sizeof_blob_disk_control } ∧
    (blob_pad b (sizeof_blob_disk_control + io.size) = 0 →
      io.size + sizeof_blob_disk_control = onDiskSize (mkRecord b io data)) := by
  constructor
  · rw [dnet_blob_iter_mkRecord]
    simp [idxUpdate]
  · intro hp
    rw [onDiskSize_mkRecord, hp]
    omega

/-- C3 witness: block size 0, 3-byte payload: scan inserts size 83,
    equal to the write path's on-disk size. -/
theorem c3_scan_size_witness :
    dnet_blob_iter (mkRecord 0
      { id := 7, origin := 7, offset := 0, size := 3
      , flags := { history := false, append := false
                 , noHistoryUpdate := false, meta := false } } [1, 2, 3]).dc
      0 false emptyIdx (7, false) =
      some { offset := 0, size := 3 + sizeof_blob_disk_control } ∧
    blob_pad 0 (sizeof_blob_disk_control + 3) = 0 ∧
    3 + sizeof_blob_disk_control = onDiskSize (mkRecord 0
      { id := 7, origin := 7, offset := 0, size := 3
      , flags := { history := false, append := false
                 , noHistoryUpdate := false, meta := false } } [1, 2, 3]) :=
  ⟨(c3_scan_size_amended 0
      { id := 7, origin := 7, offset := 0, size := 3
      , flags := { history := false, append := false
                 , noHistoryUpdate := false, meta := false } } [1, 2, 3]
      0 false emptyIdx).1, by decide,
   (c3_scan_size_amended 0
      { id := 7, origin := 7, offset := 0, size := 3
      , flags := { history := false, append := false
                 , noHistoryUpdate := false, meta := false } } [1, 2, 3]
      0 false emptyIdx).2 (by decide)⟩

/-- C4 counterexample: with block size 64, after a single 10-byte data
    write the rebuilt index differs from the index held at shutdown
    (the rebuilt entry's size omits the 38 bytes of padding), so the
    rebuild-equals-shutdown property fails as stated for arbitrary
    block sizes. -/
theorem c4_rebuild_counterexample :
    rebuildIndex (execOps (initState 64 0)
      [.raw false
        { id := 7, origin := 7, offset := 0, size := 10
        , flags := { history := false, append := false
                   , noHistoryUpdate := false, meta := false } }
        (List.replicate 10 3)]) ≠
    (execOps (initState 64 0)
      [.raw false
        { id := 7, origin := 7, offset := 0, size := 10
        , flags := { history := false, append := false
                   , noHistoryUpdate := false, meta := false } }
        (List.replicate 10 3)]).hash := by
  intro hcontra
  have h7 := congrFun hcontra (7, false)
  revert h7
  decide

/-- C4 (amended): on a padding-free backend (both block sizes 0), for
    every sequence of writes and history updates starting from the
    fresh state, rescanning the log files from offset 0 rebuilds
    exactly the index held at shutdown (tombstoned records are skipped
    by the scan and are absent from both); in particular after two
    WRITE commands to the same id the rebuilt index holds one data
    entry pointing at the second data record only. -/
theorem c4_rebuild_amended :
    (∀ ops : List BlobOp,
      rebuildIndex (execOps (initState 0 0) ops) =
        (execOps (initState 0 0) ops).hash) ∧
    (rebuildIndex (execOps (initState 0 0)
      [.cmdWrite (fun newEntry old => old ++ newEntry)
        { id := 7, origin := 7, offset := 0, size := 2
        , flags := { history := false, append := false
                   , noHistoryUpdate := false, meta := false } } [1, 2],
       .cmdWrite (fun newEntry old => old ++ newEntry)
        { id := 7, origin := 7, offset := 0, size := 3
        , flags := { history := false, append := false
                   , noHistoryUpdate := false, meta := false } } [3, 4, 5]])
      (7, false) = some { offset := 82, size := 83 } ∧
     (execOps (initState 0 0)
      [.cmdWrite (fun newEntry old => old ++ newEntry)
        { id := 7, origin := 7, offset := 0, size := 2
        , flags := { history := false, append := false
                   , noHistoryUpdate := false, meta := false } } [1, 2],
       .cmdWrite (fun newEntry old => old ++ newEntry)
        { id := 7, origin := 7, offset := 0, size := 3
        , flags := { history := false, append := false
                   , noHistoryUpdate := false, meta := false } } [3, 4, 5]]).hash
      (7, false) = some { offset := 82, size := 83 }) := by
  constructor
  · intro ops
    exact (Inv_execOps ops (initState 0 0) Inv_initState).2.2.2.2.1
  · exact ⟨by decide, by decide⟩

/-- C6: when the composite history key is already indexed, a history
    update reads the prior blob at its indexed offset, marks that
    record's on-disk header REMOVED in place, strips the header from
    the blob, hands the payload to the external process_meta hook,
    appends the hook's result as a fresh record to the history log and
    moves the index entry to the new offset (the history tail before
    the append); afterwards the prior record's header has REMOVED set. -/
theorem c6_history_update (pm : List Nat → List Nat) (s : blob_backend)
    (io : dnet_io_attr) (ctl : blob_ram_control) (r : blob_record)
    (hctl : s.hash (io.origin, true) = some ctl)
    (hrec : recordAtPos 0 ctl.offset s.histLog = some r) :
    blob_write_history_meta pm s io =
      { s with
          histLog := markRemovedAt 0 ctl.offset s.histLog ++
            [mkRecord s.history_bsize
              { io with size := (pm (r.payload.take r.dc.size)).length }
              (pm (r.payload.take r.dc.size))]
        , hash := idxUpdate s.hash (io.origin, true)
            { offset := s.history_offset
            , size := onDiskSize (mkRecord s.history_bsize
                { io with size := (pm (r.payload.take r.dc.size)).length }
                (pm (r.payload.take r.dc.size))) }
        , history_offset := s.history_offset +
            onDiskSize (mkRecord s.history_bsize
              { io with size := (pm (r.payload.take r.dc.size)).length }
              (pm (r.payload.take r.dc.size))) } ∧
    (∃ r', recordAtPos 0 ctl.offset (blob_write_history_meta pm s io).histLog =
        some r' ∧
      r'.dc.flags &&& BLOB_DISK_CTL_REMOVE ≠ 0 ∧ r'.dc.id = r.dc.id) ∧
    (blob_write_history_meta pm s io).hash (io.origin, true) =
      some { offset := s.history_offset
           , size := onDiskSize (mkRecord s.history_bsize
               { io with size := (pm (r.payload.take r.dc.size)).length }
               (pm (r.payload.take r.dc.size))) } ∧
    (mkRecord s.history_bsize
      { io with size := (pm (r.payload.take r.dc.size)).length }
      (pm (r.payload.take r.dc.size))).payload = pm (r.payload.take r.dc.size) := by
  have hexp : blob_write_history_meta pm s io =
      { s with
          histLog := markRemovedAt 0 ctl.offset s.histLog ++
            [mkRecord s.history_bsize
              { io with size := (pm (r.payload.take r.dc.size)).length }
              (pm (r.payload.take r.dc.size))]
        , hash := idxUpdate s.hash (io.origin, true)
            { offset := s.history_offset
            , size := onDiskSize (mkRecord s.history_bsize
                { io with size := (pm (r.payload.take r.dc.size)).length }
                (pm (r.payload.take r.dc.size))) }
        , history_offset := s.history_offset +
            onDiskSize (mkRecord s.history_bsize
              { io with size := (pm (r.payload.take r.dc.size)).length }
              (pm (r.payload.take r.dc.size))) } := by
    rw [blob_write_history_meta_found pm s io ctl r hctl hrec]
    rfl
  refine ⟨hexp, ?_, ?_, ?_⟩
  · rw [hexp]
    refine ⟨markRemoved r, ?_, ?_, rfl⟩
    · show recordAtPos 0 ctl.offset
        (markRemovedAt 0 ctl.offset s.histLog ++ [_]) = some (markRemoved r)
      apply recordAtPos_append_of_found
      rw [recordAtPos_markRemovedAt, hrec]
      simp
    · rw [show (markRemoved r).dc.flags = r.dc.flags ||| BLOB_DISK_CTL_REMOVE
          from rfl, or_remove_and_remove]
      decide
  · rw [hexp]
    show idxUpdate s.hash (io.origin, true) _ (io.origin, true) = _
    simp [idxUpdate]
  · exact List.take_length _

/-- C6 witness: a fresh backend receives one history record for id 7
    (payload [9]); updating it strips the header, feeds [9] to the hook
    (which appends an 8), tombstones the first record in place and
    re-indexes (7, history) at the new offset 81. -/
theorem c6_history_update_witness :
    (execOps (initState 0 0)
      [.histMeta (fun l => l ++ [9])
        { id := 7, origin := 7, offset := 0, size := 0
        , flags := { history := true, append := false
                   , noHistoryUpdate := false, meta := false } }]).hash (7, true) =
      some { offset := 0, size := 81 } ∧
    recordAtPos 0 0 (execOps (initState 0 0)
      [.histMeta (fun l => l ++ [9])
        { id := 7, origin := 7, offset := 0, size := 0
        , flags := { history := true, append := false
                   , noHistoryUpdate := false, meta := false } }]).histLog =
      some { dc := { id := 7, flags := 0, size := 1 }, payload := [9], pad := 0 } ∧
    (∃ r', recordAtPos 0 0 (blob_write_history_meta (fun l => l ++ [8])
        (execOps (initState 0 0)
          [.histMeta (fun l => l ++ [9])
            { id := 7, origin := 7, offset := 0, size := 0
            , flags := { history := true, append := false
                       , noHistoryUpdate := false, meta := false } }])
        { id := 7, origin := 7, offset := 0, size := 0
        , flags := { history := true, append := false
                   , noHistoryUpdate := false, meta := false } }).histLog =
          some r' ∧
      r'.dc.flags &&& BLOB_DISK_CTL_REMOVE ≠ 0 ∧ r'.dc.id = 7) ∧
    (blob_write_history_meta (fun l => l ++ [8])
        (execOps (initState 0 0)
          [.histMeta (fun l => l ++ [9])
            { id := 7, origin := 7, offset := 0, size := 0
            , flags := { history := true, append := false
                       , noHistoryUpdate := false, meta := false } }])
        { id := 7, origin := 7, offset := 0, size := 0
        , flags := { history := true, append := false
                   , noHistoryUpdate := false, meta := false } }).hash (7, true) =
      some { offset := 81, size := 82 } :=
  ⟨by decide, by decide,
   (c6_history_update (fun l => l ++ [8])
      (execOps (initState 0 0)
        [.histMeta (fun l => l ++ [9])
          { id := 7, origin := 7, offset := 0, size := 0
          , flags := { history := true, append := false
                     , noHistoryUpdate := false, meta := false } }])
      { id := 7, origin := 7, offset := 0, size := 0
      , flags := { history := true, append := false
                 , noHistoryUpdate := false, meta := false } }
      { offset := 0, size := 81 }
      { dc := { id := 7, flags := 0, size := 1 }, payload := [9], pad := 0 }
      (by decide) (by decide)).2.1,
   (c6_history_update (fun l => l ++ [8])
      (execOps (initState 0 0)
        [.histMeta (fun l => l ++ [9])
          { id := 7, origin := 7, offset := 0, size := 0
          , flags := { history := true, append := false
                     , noHistoryUpdate := false, meta := false } }])
      { id := 7, origin := 7, offset := 0, size := 0
      , flags := { history := true, append := false
                 , noHistoryUpdate := false, meta := false } }
      { offset := 0, size := 81 }
      { dc := { id := 7, flags := 0, size := 1 }, payload := [9], pad := 0 }
      (by decide) (by decide)).2.2.1⟩

/-- A history update appends exactly one record to the history log
    (the hook's output on some stripped prior blob), leaves the data
    log alone, and leaves every data-kind hash entry alone. -/
theorem blob_write_history_meta_shape (pm' : List Nat → List Nat)
    (s' : blob_backend) (io' : dnet_io_attr)
    (hok : ∀ ctl, s'.hash (io'.origin, true) = some ctl →
      ∃ r, recordAtPos 0 ctl.offset s'.histLog = some r) :
    ∃ stripped : List Nat,
      (blob_write_history_meta pm' s' io').histLog.length =
        s'.histLog.length + 1 ∧
      (blob_write_history_meta pm' s' io').histLog.getLast? =
        some (mkRecord s'.history_bsize
          { io' with size := (pm' stripped).length } (pm' stripped)) ∧
      (blob_write_history_meta pm' s' io').dataLog = s'.dataLog ∧
      (∀ k : Nat × Bool, k.2 = false →
        (blob_write_history_meta pm' s' io').hash k = s'.hash k) := by
  cases hc : s'.hash (io'.origin, true) with
  | none =>
    refine ⟨[], ?_, ?_, ?_, ?_⟩ <;>
      rw [blob_write_history_meta_not_found pm' s' io' hc, blob_write_raw_true]
    · show (s'.histLog ++ [_]).length = _
      simp
    · show (s'.histLog ++ [mkRecord s'.history_bsize
        { io' with size := (pm' []).length } (pm' [])]).getLast? = _
      exact List.getLast?_concat _
    · intro k hk
      show idxUpdate s'.hash (io'.origin, true) _ k = s'.hash k
      have hne : k ≠ (io'.origin, true) := by
        intro he
        rw [he] at hk
        exact Bool.noConfusion hk
      simp [idxUpdate, hne]
  | some ctl =>
    obtain ⟨r, hr⟩ := hok ctl hc
    refine ⟨r.payload.take r.dc.size, ?_, ?_, ?_, ?_⟩ <;>
      rw [blob_write_history_meta_found pm' s' io' ctl r hc hr, blob_write_raw_true]
    · show (markRemovedAt 0 ctl.offset s'.histLog ++ [_]).length = _
      simp [length_markRemovedAt]
    · show (markRemovedAt 0 ctl.offset s'.histLog ++ [mkRecord s'.history_bsize
        { io' with size := (pm' (r.payload.take r.dc.size)).length }
        (pm' (r.payload.take r.dc.size))]).getLast? = _
      exact List.getLast?_concat _
    · intro k hk
      show idxUpdate s'.hash (io'.origin, true) _ k = s'.hash k
      have hne : k ≠ (io'.origin, true) := by
        intro he
        rw [he] at hk
        exact Bool.noConfusion hk
      simp [idxUpdate, hne]

/-- C7: a WRITE whose IoAttr lacks IS_HISTORY appends the payload to
    the data log at the current data tail -- placement ignores
    io.offset -- and then, unless NO_HISTORY_UPDATE is set, appends
    exactly one record to the history log, carrying the hook's output
    on a HistoryEntry that records the logical io.offset and io.size;
    with NO_HISTORY_UPDATE only the data append occurs. -/
theorem c7_write_command (pm : List Nat → List Nat → List Nat)
    (s : blob_backend) (io : dnet_io_attr) (data : List Nat)
    (hh : io.flags.history = false)
    (hok : ∀ ctl, s.hash (io.origin, true) = some ctl →
      ∃ r, recordAtPos 0 ctl.offset s.histLog = some r) :
    (blob_write pm s io data).dataLog =
      s.dataLog ++ [mkRecord s.data_bsize io data] ∧
    (blob_write pm s io data).hash (io.origin, false) =
      some { offset := s.data_offset
           , size := onDiskSize (mkRecord s.data_bsize io data) } ∧
    (io.flags.noHistoryUpdate = true →
      blob_write pm s io data = blob_write_raw s false io data) ∧
    (io.flags.noHistoryUpdate = false →
      (blob_write pm s io data).histLog.length = s.histLog.length + 1 ∧
      (∃ stripped r',
        (blob_write pm s io data).histLog.getLast? = some r' ∧
        r'.payload = pm (encode_history_entry
          (dnet_setup_history_entry io.id io.size io.offset io.flags)) stripped ∧
        r'.dc.id = io.origin)) := by
  cases hnh : io.flags.noHistoryUpdate with
  | true =>
    have hbw : blob_write pm s io data = blob_write_raw s false io data := by
      unfold blob_write blob_write_history backend_write_history
      simp only [hh, Bool.false_eq_true, if_false, hnh, if_true]
    refine ⟨?_, ?_, fun _ => hbw, ?_⟩
    · rw [hbw, blob_write_raw_false]
    · rw [hbw, blob_write_raw_false]
      show idxUpdate s.hash (io.origin, false) _ (io.origin, false) = _
      simp [idxUpdate]
    · intro hcontra
      exact Bool.noConfusion hcontra
  | false =>
    have hbw : blob_write pm s io data =
        blob_write_history_meta
          (pm (encode_history_entry
            (dnet_setup_history_entry io.id io.size io.offset io.flags)))
          (blob_write_raw s false io data)
          { io with
              flags := { io.flags with append := true, history := true, meta := false }
            , size := sizeof_dnet_history_entry
            , offset := 0 } := by
      unfold blob_write blob_write_history backend_write_history
      simp only [hh, Bool.false_eq_true, if_false, hnh, if_false]
    have hS1hash_t : (blob_write_raw s false io data).hash (io.origin, true) =
        s.hash (io.origin, true) := by
      rw [blob_write_raw_false]
      show idxUpdate s.hash (io.origin, false) _ (io.origin, true) = _
      simp [idxUpdate]
    have hS1hist : (blob_write_raw s false io data).histLog = s.histLog := by
      rw [blob_write_raw_false]
    have hok1 : ∀ ctl, (blob_write_raw s false io data).hash
        (({ io with
              flags := { io.flags with append := true, history := true, meta := false }
            , size := sizeof_dnet_history_entry
            , offset := 0 } : dnet_io_attr).origin, true) = some ctl →
        ∃ r, recordAtPos 0 ctl.offset
          (blob_write_raw s false io data).histLog = some r := by
      intro ctl hc
      have hc' : s.hash (io.origin, true) = some ctl := by
        rw [← hS1hash_t]
        exact hc
      obtain ⟨r, hr⟩ := hok ctl hc'
      refine ⟨r, ?_⟩
      rw [hS1hist]
      exact hr
    obtain ⟨stripped, hlen, hlast, hdata, hhash⟩ :=
      blob_write_history_meta_shape
        (pm (encode_history_entry
          (dnet_setup_history_entry io.id io.size io.offset io.flags)))
        (blob_write_raw s false io data)
        { io with
            flags := { io.flags with append := true, history := true, meta := false }
          , size := sizeof_dnet_history_entry
          , offset := 0 } hok1
    refine ⟨?_, ?_, ?_, ?_⟩
    · rw [hbw, hdata, blob_write_raw_false]
    · rw [hbw, hhash (io.origin, false) rfl, blob_write_raw_false]
      show idxUpdate s.hash (io.origin, false) _ (io.origin, false) = _
      simp [idxUpdate]
    · intro hcontra
      exact Bool.noConfusion hcontra
    · intro _
      constructor
      · rw [hbw, hlen, hS1hist]
      · exact ⟨stripped,
          mkRecord (blob_write_raw s false io data).history_bsize
            { io with
                flags := { io.flags with
                  append := true, history := true, meta := false }
              , size := (pm (encode_history_entry
                  (dnet_setup_history_entry io.id io.size io.offset io.flags))
                    stripped).length
              , offset := 0 }
            (pm (encode_history_entry
              (dnet_setup_history_entry io.id io.size io.offset io.flags)) stripped),
          by rw [hbw]; exact hlast, List.take_length _, rfl⟩

/-- C7 witness: a WRITE of [5, 6] for id 7 with logical offset 4 on a
    fresh backend appends one data record at tail 0 and one history
    record whose payload is the hook's output on the entry recording
    offset 4 and size 2. -/
theorem c7_write_command_witness :
    ({ id := 7, origin := 7, offset := 4, size := 2
     , flags := { history := false, append := false
                , noHistoryUpdate := false, meta := false } } :
        dnet_io_attr).flags.history = false ∧
    (blob_write (fun newEntry old => old ++ newEntry) (initState 0 0)
      { id := 7, origin := 7, offset := 4, size := 2
      , flags := { history := false, append := false
                 , noHistoryUpdate := false, meta := false } } [5, 6]).dataLog =
      [mkRecord 0
        { id := 7, origin := 7, offset := 4, size := 2
        , flags := { history := false, append := false
                   , noHistoryUpdate := false, meta := false } } [5, 6]] ∧
    ((blob_write (fun newEntry old => old ++ newEntry) (initState 0 0)
      { id := 7, origin := 7, offset := 4, size := 2
      , flags := { history := false, append := false
                 , noHistoryUpdate := false, meta := false } } [5, 6]).histLog.length = 1 ∧
     ∃ stripped r',
       (blob_write (fun newEntry old => old ++ newEntry) (initState 0 0)
        { id := 7, origin := 7, offset := 4, size := 2
        , flags := { history := false, append := false
                   , noHistoryUpdate := false, meta := false } } [5, 6]).histLog.getLast? =
         some r' ∧
       r'.payload = (fun newEntry old => old ++ newEntry)
         (encode_history_entry (dnet_setup_history_entry 7 2 4
           { history := false, append := false
           , noHistoryUpdate := false, meta := false })) stripped ∧
       r'.dc.id = 7) :=
  ⟨rfl,
   (c7_write_command (fun newEntry old => old ++ newEntry) (initState 0 0)
      { id := 7, origin := 7, offset := 4, size := 2
      , flags := { history := false, append := false
                 , noHistoryUpdate := false, meta := false } } [5, 6] rfl
      (fun ctl hc => Option.noConfusion hc)).1,
   (c7_write_command (fun newEntry old => old ++ newEntry) (initState 0 0)
      { id := 7, origin := 7, offset := 4, size := 2
      , flags := { history := false, append := false
                 , noHistoryUpdate := false, meta := false } } [5, 6] rfl
      (fun ctl hc => Option.noConfusion hc)).2.2.2 rfl⟩

end Elliptics
